import Mathlib

/-! # OpenFeature configuration store: a shallow embedding

Embedding of `configuration/openfeature/openfeature.go` and
`configuration/openfeature/pkg/providers.go`.

* Go maps that are only read (`map[string]string` metadata) are association
  lists read with `List.lookup`.
* The one Go map that is written, `GetResponse.Items`, keeps the distinction
  between the nil map and an allocated map: a store into the nil map is a
  run-time abort in Go.
* The evaluation client is an external collaborator.  It is a record of
  state-passing functions over an arbitrary state `σ`, so that a theorem
  quantified over the record covers every behaviour of the provider; every
  call is also appended to a trace.
* `encoding/json` and `strconv.ParseFloat` on arbitrary input are external
  and carried as fields of `GoLib`.  `strconv.ParseBool`, `strconv.ParseInt`,
  `strconv.Atoi` and the `fmt` verbs used by the source are modelled concretely.
-/

namespace OpenFeature

/-! ## Errors and results -/

/-- Go `error` values that the adapter can return. -/
inductive GoError where
  /-- Result of `fmt.Errorf` with the rendered message. -/
  | errorf (msg : String)
  /-- A `*strconv.NumError`: function name, offending input, and whether the
  cause is `ErrRange` (otherwise `ErrSyntax`). -/
  | numError (fn : String) (num : String) (isRange : Bool)
  /-- An error produced by an external collaborator (evaluation client,
  `encoding/json`, `strconv.ParseFloat`, provider constructors). -/
  | external (msg : String)
  deriving DecidableEq, Repr

/-- The `configuration.Item` record as far as the adapter fills it. -/
structure Item where
  Value : String
  Metadata : List (String × String)
  deriving DecidableEq, Repr

/-- A Go map that may be written: `nil` is the zero value, `alloc` an
allocated map given by its entries (keys pairwise distinct). -/
inductive GoMap (V : Type) where
  | nil
  | alloc (entries : List (String × V))
  deriving DecidableEq, Repr

/-- Go map assignment `m[k] = v`.  On the nil map the Go run time aborts
with `assignment to entry in nil map`; that outcome is `none`. -/
def GoMap.store {V : Type} : GoMap V → String → V → Option (GoMap V)
  | .nil, _, _ => none
  | .alloc es, k, v => some (.alloc ((k, v) :: es.filter (fun e => e.1 != k)))

/-- The keys held by a Go map. -/
def GoMap.keys {V : Type} : GoMap V → List String
  | .nil => []
  | .alloc es => es.map Prod.fst

/-- The `configuration.GetResponse` record: `Items` is `map[string]*Item`,
a pointer that may be nil is an `Option`. -/
structure GetResponse where
  Items : GoMap (Option Item)
  deriving DecidableEq, Repr

/-- The `configuration.GetRequest` record. -/
structure GetRequest where
  Keys : List String
  Metadata : List (String × String)
  deriving DecidableEq, Repr

/-- The `openfeature.EvaluationContext` built by `NewEvaluationContext`. -/
structure EvaluationContext where
  targetingKey : String
  attributes : List (String × String)
  deriving DecidableEq, Repr

/-- Construct an evaluation context, as `openfeature.NewEvaluationContext`. -/
def NewEvaluationContext (targetingKey : String) (attributes : List (String × String)) :
    EvaluationContext :=
  ⟨targetingKey, attributes⟩

/-- The fields of the client's evaluation details that the adapter reads. -/
structure EvaluationDetails (α : Type) where
  Value : α
  FlagKey : String
  Variant : String
  Reason : String
  deriving DecidableEq, Repr

/-! ## Constants of the source -/

def keyProvider : String := "provider"
def ProviderFlagd : String := "flagd"
def ProviderGoFeatureFlag : String := "goFeatureFlag"
def keyDefaultValueSuffix : String := "_defaultValue"
def keyTypeSuffix : String := "_type"
def FlagTypeBool : String := "bool"
def FlagTypeString : String := "string"
def FlagTypeInt : String := "int"
def FlagTypeFloat : String := "float"
def FlagTypeObject : String := "object"

def keyFlagdHost : String := "flagdHost"
def keyFlagdPort : String := "flagdPort"
def keyGoFeatureFlagEndpoint : String := "goFeatureFlagEndpoint"
def keyGoFeatureFlagTimeout : String := "goFeatureFlagTimeout"

/-! ## Machine integers -/

def minInt64 : Int := -(2 ^ 63)
def maxInt64 : Int := 2 ^ 63 - 1

/-- Go `int64` (and `int` on a 64-bit platform). -/
def Int64 : Type := { i : Int // minInt64 ≤ i ∧ i ≤ maxInt64 }

instance : DecidableEq Int64 := by
  unfold Int64
  infer_instance

/-- Two's-complement wrap of an integer into the `int64` range. -/
def wrapInt64 (x : Int) : Int :=
  (x + 2 ^ 63) % 2 ^ 64 - 2 ^ 63

/-- Go conversion `int64(x)`: the identity on values already in range. -/
def toInt64 (x : Int) : Int64 :=
  ⟨wrapInt64 x, by
    unfold wrapInt64 minInt64 maxInt64
    have h1 := Int.emod_nonneg (x + 2 ^ 63) (show (2 : Int) ^ 64 ≠ 0 by norm_num)
    have h2 := Int.emod_lt_of_pos (x + 2 ^ 63) (show (0 : Int) < 2 ^ 64 by norm_num)
    constructor <;> omega⟩

/-- Go conversion `uint16(p)` of a signed integer: keep the low 16 bits. -/
def toUint16 (p : Int) : Nat :=
  (p % 65536).toNat

/-! ## strconv and fmt -/

/-- Value of a decimal digit character, `none` for any other character. -/
def digitVal (c : Char) : Option Nat :=
  if 48 ≤ c.toNat ∧ c.toNat ≤ 57 then some (c.toNat - 48) else none

/-- The loop of `strconv.ParseUint(s, 10, 64)` over the characters left to
read, with accumulator `n`: a non-digit is `ErrSyntax`, leaving the
`uint64` range is `ErrRange`, both reported at the first offending character. -/
def parseUintLoop (fn : String) (s : String) : List Char → Nat → Except GoError Nat
  | [], n => .ok n
  | c :: cs, n =>
    match digitVal c with
    | none => .error (.numError fn s false)
    | some d =>
      if n ≥ (2 ^ 64 - 1) / 10 + 1 then .error (.numError fn s true)
      else if n * 10 + d > 2 ^ 64 - 1 then .error (.numError fn s true)
      else parseUintLoop fn s cs (n * 10 + d)

/-- The signed parse shared by `strconv.ParseInt(s, 10, 64)` and
`strconv.Atoi(s)`; `fn` is the function name recorded in the error. -/
def parseSigned (fn : String) (s : String) : Except GoError Int :=
  match s.data with
  | [] => .error (.numError fn s false)
  | c :: cs =>
    let neg := c == '-'
    let body := if c == '+' ∨ c == '-' then cs else c :: cs
    match body with
    | [] => .error (.numError fn s false)
    | _ =>
      match parseUintLoop fn s body 0 with
      | .error e => .error e
      | .ok un =>
        if ¬ neg ∧ un ≥ 2 ^ 63 then .error (.numError fn s true)
        else if neg ∧ un > 2 ^ 63 then .error (.numError fn s true)
        else .ok (if neg then -(un : Int) else (un : Int))

/-- Model of `strconv.ParseInt(s, 10, 64)`. -/
def ParseInt (s : String) : Except GoError Int := parseSigned "ParseInt" s

/-- Model of `strconv.Atoi(s)` on a 64-bit platform. -/
def Atoi (s : String) : Except GoError Int := parseSigned "Atoi" s

/-- Model of `strconv.ParseBool`. -/
def ParseBool (s : String) : Except GoError Bool :=
  if s = "1" ∨ s = "t" ∨ s = "T" ∨ s = "TRUE" ∨ s = "true" ∨ s = "True" then .ok true
  else if s = "0" ∨ s = "f" ∨ s = "F" ∨ s = "FALSE" ∨ s = "false" ∨ s = "False" then .ok false
  else .error (.numError "ParseBool" s false)

/-- The character of a decimal digit `d < 10`. -/
def digitChar (d : Nat) : Char := Char.ofNat (48 + d)

/-- Decimal digits of `n`, most significant first, prepended to `acc`;
`fuel` bounds the number of digits. -/
def natDigitsAux : Nat → Nat → List Char → List Char
  | 0, _, acc => acc
  | fuel + 1, n, acc =>
    if n < 10 then digitChar n :: acc
    else natDigitsAux fuel (n / 10) (digitChar (n % 10) :: acc)

/-- Decimal digits of a natural number, without leading zeros. -/
def natDigits (n : Nat) : List Char := natDigitsAux (n + 1) n []

/-- Exactly `w` decimal digits of `n % 10 ^ w`, zero padded. -/
def fixedDigits : Nat → Nat → List Char
  | 0, _ => []
  | w + 1, n => fixedDigits w (n / 10) ++ [digitChar (n % 10)]

/-- Rendering of `fmt.Sprintf("%t", b)`. -/
def fmtBool (b : Bool) : String := if b then "true" else "false"

/-- Rendering of `fmt.Sprintf("%d", v)` for a signed integer. -/
def fmtInt (v : Int) : String :=
  if v < 0 then String.mk ('-' :: natDigits v.natAbs) else String.mk (natDigits v.natAbs)

/-! ## 64-bit floats -/

/-- A Go `float64`.  A finite value is `(-1)^neg * mant * 2^(e - 1074)`;
the IEEE-754 encodings are exactly the finite values with `F64.Canonical`,
the two infinities and NaN. -/
inductive F64 where
  | finite (neg : Bool) (mant : Nat) (e : Nat)
  | inf (neg : Bool)
  | nan
  deriving DecidableEq, Repr

/-- The finite values that are float64 encodings: subnormals and zeros have
`e = 0` and `mant < 2^52`; normal numbers have `2^52 ≤ mant < 2^53` and
`e ≤ 2045`. -/
def F64.Canonical : F64 → Prop
  | .finite _ mant e => (e = 0 ∧ mant < 2 ^ 52) ∨ (2 ^ 52 ≤ mant ∧ mant < 2 ^ 53 ∧ e ≤ 2045)
  | _ => False

instance (v : F64) : Decidable v.Canonical := by
  cases v <;> unfold F64.Canonical <;> infer_instance

/-- Go `==` on `float64`: numeric equality, so the two zeros are equal and
NaN differs from everything. -/
def F64.goEq : F64 → F64 → Bool
  | .finite n1 m1 e1, .finite n2 m2 e2 =>
    (m1 == 0 && m2 == 0) || (n1 == n2 && m1 == m2 && e1 == e2)
  | .inf n1, .inf n2 => n1 == n2
  | _, _ => false

/-- Quotient `n / d` rounded to the nearest integer, ties to even. -/
def roundHalfEven (n d : Nat) : Nat :=
  let q := n / d
  let r := n % d
  if 2 * r < d then q
  else if 2 * r > d then q + 1
  else if q % 2 = 0 then q else q + 1

/-- Floor of the binary logarithm of `n` (`0` for `n < 2`); `fuel` bounds the
number of halvings. -/
def log2Aux : Nat → Nat → Nat
  | 0, _ => 0
  | fuel + 1, n => if n < 2 then 0 else log2Aux fuel (n / 2) + 1

/-- Floor of the binary logarithm. -/
def log2 (n : Nat) : Nat := log2Aux n n

/-- The float64 nearest to `(-1)^neg * num / den` (`den > 0`), ties to even,
overflow to infinity: IEEE-754 round-to-nearest. -/
def roundF64 (neg : Bool) (num den : Nat) : F64 :=
  let n1 := num * 2 ^ 1074
  let e := log2 (n1 / den) - 52
  let m := roundHalfEven n1 (den * 2 ^ e)
  let m1 := if m = 2 ^ 53 then 2 ^ 52 else m
  let e1 := if m = 2 ^ 53 then e + 1 else e
  if e1 > 2045 then .inf neg else .finite neg m1 e1

/-- Rendering of `fmt.Sprintf("%f", v)`: the exact value rounded, ties to
even, to six digits after the decimal point. -/
def fmtFloat : F64 → String
  | .finite neg mant e =>
    let n := roundHalfEven (mant * 2 ^ e * 10 ^ 6) (2 ^ 1074)
    String.mk ((if neg then ['-'] else []) ++ natDigits (n / 10 ^ 6) ++ '.' ::
      fixedDigits 6 (n % 10 ^ 6))
  | .inf neg => if neg then "-Inf" else "+Inf"
  | .nan => "NaN"

/-- Value of a list of decimal digit characters read as one number, `none`
when a character is not a digit. -/
def digitsValue : List Char → Nat → Option Nat
  | [], n => some n
  | c :: cs, n =>
    match digitVal c with
    | none => none
    | some d => digitsValue cs (n * 10 + d)

/-- Whether a character is a decimal digit. -/
def isDigit (c : Char) : Bool := (digitVal c).isSome

/-- The result of a float parse that rounded to `v`: a value that overflowed
to infinity is reported as `ErrRange`. -/
def rangeChecked (s : String) : F64 → Except GoError F64
  | .inf _ => .error (.numError "ParseFloat" s true)
  | v => .ok v

/-- Base-10 decoding of a fixed-point decimal string, `[+-]digits[.digits]`
with at least one digit, to the nearest float64 (the result
`strconv.ParseFloat(s, 64)` gives on such a string); a value that rounds to
infinity is `ErrRange`, any other text is rejected as `ErrSyntax`. -/
def decodeFloat64 (s : String) : Except GoError F64 :=
  let cs := s.data
  let neg := cs.head? == some '-'
  let body := if cs.head? == some '-' ∨ cs.head? == some '+' then cs.tail else cs
  let ip := body.takeWhile isDigit
  let fp := match body.dropWhile isDigit with
    | [] => some []
    | c :: r => if c == '.' then some r else none
  match fp with
  | none => .error (.numError "ParseFloat" s false)
  | some fr =>
    match digitsValue (ip ++ fr) 0 with
    | none => .error (.numError "ParseFloat" s false)
    | some m =>
      if ip ++ fr = [] then .error (.numError "ParseFloat" s false)
      else rangeChecked s (roundF64 neg m (10 ^ fr.length))

/-! ## The evaluation client and the Go library -/

/-- One call made to the evaluation client: the typed method and the flag. -/
structure Call where
  method : String
  flag : String
  deriving DecidableEq, Repr

/-- The `openfeature.Client` held by the store, as state-passing functions
over the provider state `σ`; `V` is the type of the values an object flag
can hold (Go `interface{}`).  Each method returns the new state together
with the details or the error of the evaluation. -/
structure Client (σ V : Type) where
  BooleanValueDetails : σ → String → Bool → EvaluationContext →
    σ × Except GoError (EvaluationDetails Bool)
  StringValueDetails : σ → String → String → EvaluationContext →
    σ × Except GoError (EvaluationDetails String)
  IntValueDetails : σ → String → Int64 → EvaluationContext →
    σ × Except GoError (EvaluationDetails Int64)
  FloatValueDetails : σ → String → F64 → EvaluationContext →
    σ × Except GoError (EvaluationDetails F64)
  ObjectValueDetails : σ → String → V → EvaluationContext →
    σ × Except GoError (EvaluationDetails V)

/-- The external library functions whose results the getters only pass on:
`strconv.ParseFloat(·, 64)`, `json.Unmarshal` into a `map[string]interface{}`
and `json.Marshal`. -/
structure GoLib (V : Type) where
  ParseFloat : String → Except GoError F64
  Unmarshal : String → Except GoError V
  Marshal : V → Except GoError String

/-- What a getter leaves behind: provider state, trace of client calls, and
the `(*Item, error)` pair as a result. -/
structure Ran (σ α : Type) where
  state : σ
  trace : List Call
  result : α

/-- The three-entry metadata map every getter builds from the details. -/
def detailsMetadata {α : Type} (res : EvaluationDetails α) : List (String × String) :=
  [("flagKey", res.FlagKey), ("variant", res.Variant), ("reason", res.Reason)]

/-! ## The typed getters -/

variable {σ V : Type}

/-- Embedding of `ConfigurationStore.getBoolFlag`. -/
def getBoolFlag (c : Client σ V) (s : σ) (tr : List Call) (flag : String)
    (evalContext : EvaluationContext) (d : String) : Ran σ (Except GoError Item) :=
  match ParseBool d with
  | .error err => ⟨s, tr, .error err⟩
  | .ok defaultValue =>
    match c.BooleanValueDetails s flag defaultValue evalContext with
    | (s1, .error err) => ⟨s1, tr ++ [⟨"BooleanValueDetails", flag⟩], .error err⟩
    | (s1, .ok res) =>
      ⟨s1, tr ++ [⟨"BooleanValueDetails", flag⟩],
        .ok ⟨fmtBool res.Value, detailsMetadata res⟩⟩

/-- Embedding of `ConfigurationStore.getStringFlag`. -/
def getStringFlag (c : Client σ V) (s : σ) (tr : List Call) (flag : String)
    (evalContext : EvaluationContext) (defaultValue : String) :
    Ran σ (Except GoError Item) :=
  match c.StringValueDetails s flag defaultValue evalContext with
  | (s1, .error err) => ⟨s1, tr ++ [⟨"StringValueDetails", flag⟩], .error err⟩
  | (s1, .ok res) =>
    ⟨s1, tr ++ [⟨"StringValueDetails", flag⟩], .ok ⟨res.Value, detailsMetadata res⟩⟩

/-- Embedding of `ConfigurationStore.getIntFlag`. -/
def getIntFlag (c : Client σ V) (s : σ) (tr : List Call) (flag : String)
    (evalContext : EvaluationContext) (d : String) : Ran σ (Except GoError Item) :=
  match ParseInt d with
  | .error err => ⟨s, tr, .error err⟩
  | .ok defaultValue =>
    match c.IntValueDetails s flag (toInt64 defaultValue) evalContext with
    | (s1, .error err) => ⟨s1, tr ++ [⟨"IntValueDetails", flag⟩], .error err⟩
    | (s1, .ok res) =>
      ⟨s1, tr ++ [⟨"IntValueDetails", flag⟩],
        .ok ⟨fmtInt res.Value.val, detailsMetadata res⟩⟩

/-- Embedding of `ConfigurationStore.getFloatFlag`. -/
def getFloatFlag (lib : GoLib V) (c : Client σ V) (s : σ) (tr : List Call) (flag : String)
    (evalContext : EvaluationContext) (d : String) : Ran σ (Except GoError Item) :=
  match lib.ParseFloat d with
  | .error err => ⟨s, tr, .error err⟩
  | .ok defaultValue =>
    match c.FloatValueDetails s flag defaultValue evalContext with
    | (s1, .error err) => ⟨s1, tr ++ [⟨"FloatValueDetails", flag⟩], .error err⟩
    | (s1, .ok res) =>
      ⟨s1, tr ++ [⟨"FloatValueDetails", flag⟩],
        .ok ⟨fmtFloat res.Value, detailsMetadata res⟩⟩

/-- Embedding of `ConfigurationStore.getObjectFlag`. -/
def getObjectFlag (lib : GoLib V) (c : Client σ V) (s : σ) (tr : List Call) (flag : String)
    (evalContext : EvaluationContext) (d : String) : Ran σ (Except GoError Item) :=
  match lib.Unmarshal d with
  | .error err => ⟨s, tr, .error err⟩
  | .ok defaultValue =>
    match c.ObjectValueDetails s flag defaultValue evalContext with
    | (s1, .error err) => ⟨s1, tr ++ [⟨"ObjectValueDetails", flag⟩], .error err⟩
    | (s1, .ok res) =>
      match lib.Marshal res.Value with
      | .error err => ⟨s1, tr ++ [⟨"ObjectValueDetails", flag⟩], .error err⟩
      | .ok val =>
        ⟨s1, tr ++ [⟨"ObjectValueDetails", flag⟩], .ok ⟨val, detailsMetadata res⟩⟩

/-! ## Get -/

/-- How a call of `Get` ends: with a response and a nil error, with a nil
response and an error, or aborted by a run-time panic. -/
inductive GetOutcome where
  | response (res : GetResponse)
  | error (err : GoError)
  | panic (msg : String)
  deriving DecidableEq, Repr

/-- The dispatch `switch FlagType(t)` of `Get`: the `(item, err)` pair after
the switch.  With a tag that matches no case both stay nil. -/
def dispatch (lib : GoLib V) (c : Client σ V) (s : σ) (tr : List Call) (t : String)
    (key : String) (evalContext : EvaluationContext) (defaultValueString : String) :
    Ran σ (Except GoError (Option Item)) :=
  let lift : Ran σ (Except GoError Item) → Ran σ (Except GoError (Option Item)) :=
    fun r => ⟨r.state, r.trace, r.result.map some⟩
  if t = FlagTypeBool then lift (getBoolFlag c s tr key evalContext defaultValueString)
  else if t = FlagTypeString then lift (getStringFlag c s tr key evalContext defaultValueString)
  else if t = FlagTypeInt then lift (getIntFlag c s tr key evalContext defaultValueString)
  else if t = FlagTypeFloat then
    lift (getFloatFlag lib c s tr key evalContext defaultValueString)
  else if t = FlagTypeObject then
    lift (getObjectFlag lib c s tr key evalContext defaultValueString)
  else ⟨s, tr, .ok none⟩

/-- The loop `for _, key := range req.Keys` of `Get` over the keys left,
with the response built so far. -/
def GetLoop (lib : GoLib V) (c : Client σ V) (req : GetRequest)
    (evalContext : EvaluationContext) :
    List String → GetResponse → σ → List Call → Ran σ GetOutcome
  | [], res, s, tr => ⟨s, tr, .response res⟩
  | key :: rest, res, s, tr =>
    let typeKey := key ++ keyTypeSuffix
    match req.Metadata.lookup typeKey with
    | none =>
      ⟨s, tr, .error (.errorf
        ("required key " ++ typeKey ++ " not found in metadata for flag " ++ key))⟩
    | some t =>
      let defaultValueKey := key ++ keyDefaultValueSuffix
      match req.Metadata.lookup defaultValueKey with
      | none =>
        ⟨s, tr, .error (.errorf
          ("required key " ++ defaultValueKey ++ " not found in metadata for flag " ++ key))⟩
      | some defaultValueString =>
        match dispatch lib c s tr t key evalContext defaultValueString with
        | ⟨s1, tr1, .error err⟩ => ⟨s1, tr1, .error err⟩
        | ⟨s1, tr1, .ok item⟩ =>
          match res.Items.store key item with
          | none => ⟨s1, tr1, .panic "assignment to entry in nil map"⟩
          | some items => GetLoop lib c req evalContext rest ⟨items⟩ s1 tr1

/-- Embedding of `ConfigurationStore.Get`.  The response starts as the
composite literal `&configuration.GetResponse{}`, whose `Items` is the nil map. -/
def Get (lib : GoLib V) (c : Client σ V) (s : σ) (req : GetRequest) : Ran σ GetOutcome :=
  let res : GetResponse := ⟨.nil⟩
  let attributes := req.Metadata
  let evalContext := NewEvaluationContext "" attributes
  GetLoop lib c req evalContext req.Keys res s []

/-! ## Provider selection -/

/-- An option handed to `flagd.NewProvider`. -/
inductive FlagdOption where
  | WithHost (host : String)
  | WithPort (port : Nat)
  deriving DecidableEq, Repr

/-- Embedding of `NewFlagdProvider`: the option list passed to
`flagd.NewProvider`, or the error. -/
def NewFlagdProvider (metadata : List (String × String)) : Except GoError (List FlagdOption) :=
  let args : List FlagdOption := []
  let args := match metadata.lookup keyFlagdHost with
    | some host => args ++ [.WithHost host]
    | none => args
  match metadata.lookup keyFlagdPort with
  | some port =>
    match Atoi port with
    | .error _ =>
      .error (.errorf ("could not parse metadata value " ++ keyFlagdPort ++ ", " ++ port))
    | .ok p => .ok (args ++ [.WithPort (toUint16 p)])
  | none => .ok args

/-- The `gofeatureflag.ProviderOptions` the source fills: the endpoint and the
timeout of the HTTP client, a `time.Duration` in nanoseconds. -/
structure ProviderOptions where
  Endpoint : String
  Timeout : Int
  deriving DecidableEq, Repr

/-- One second as a `time.Duration`. -/
def Second : Int := 1000000000

/-- Embedding of `NewGoFeatureFlagProvider`; `newProviderWithContext` is the
external constructor `gofeatureflag.NewProviderWithContext`. -/
def NewGoFeatureFlagProvider {P : Type}
    (newProviderWithContext : ProviderOptions → Except GoError P)
    (metadata : List (String × String)) : Except GoError P :=
  match metadata.lookup keyGoFeatureFlagEndpoint with
  | none => .error (.errorf ("missing required metadata value " ++ keyGoFeatureFlagEndpoint))
  | some endpoint =>
    let timeout := wrapInt64 (1 * Second)
    let timeout : Except GoError Int :=
      match metadata.lookup keyFlagdPort with
      | some t =>
        match Atoi t with
        | .error _ =>
          .error (.errorf ("could not parse metadata value " ++ keyFlagdPort ++ ", " ++ t))
        | .ok tt => .ok (wrapInt64 (tt * Second))
      | none => .ok timeout
    match timeout with
    | .error err => .error err
    | .ok timeout =>
      let options : ProviderOptions := ⟨endpoint, timeout⟩
      match newProviderWithContext options with
      | .error err => .error err
      | .ok provider => .ok provider

/-! ## Init -/

/-- A provider handle: the flagd provider with its options, or the
GoFeatureFlag provider returned by the external constructor. -/
inductive Provider (P : Type) where
  | flagd (opts : List FlagdOption)
  | goFeatureFlag (p : P)
  deriving DecidableEq, Repr

/-- The state `Init` acts on: the process-wide provider slot written by
`openfeature.SetProvider`, and the `client` field of the store, `none` while
it is unset, otherwise the name given to `openfeature.NewClient`. -/
structure InitState (P : Type) where
  provider : Option (Provider P)
  client : Option String
  deriving DecidableEq, Repr

/-- Embedding of `ConfigurationStore.Init`: the state afterwards and the
returned error, `none` for nil. -/
def Init {P : Type} (newProviderWithContext : ProviderOptions → Except GoError P)
    (st : InitState P) (metadata : List (String × String)) :
    InitState P × Option GoError :=
  match metadata.lookup keyProvider with
  | none => (st, some (.errorf "no provider defined in metadata"))
  | some provider =>
    if provider = ProviderFlagd then
      match NewFlagdProvider metadata with
      | .error err => (st, some err)
      | .ok p => (⟨some (.flagd p), some "dapr"⟩, none)
    else if provider = ProviderGoFeatureFlag then
      match NewGoFeatureFlagProvider newProviderWithContext metadata with
      | .error err => (st, some err)
      | .ok p => (⟨some (.goFeatureFlag p), some "dapr"⟩, none)
    else (st, some (.errorf ("unrecognized provider " ++ provider)))

/-! ## A stub provider for concrete evaluations -/

/-- A stub client: every boolean flag evaluates to `true` with variant `on`
and reason `TARGETING_MATCH`; every other flag evaluates to the default it
was given, with variant `default` and reason `DEFAULT`. -/
def stubClient : Client Unit String where
  BooleanValueDetails := fun s flag _ _ => (s, .ok ⟨true, flag, "on", "TARGETING_MATCH"⟩)
  StringValueDetails := fun s flag d _ => (s, .ok ⟨d, flag, "default", "DEFAULT"⟩)
  IntValueDetails := fun s flag d _ => (s, .ok ⟨d, flag, "default", "DEFAULT"⟩)
  FloatValueDetails := fun s flag d _ => (s, .ok ⟨d, flag, "default", "DEFAULT"⟩)
  ObjectValueDetails := fun s flag d _ => (s, .ok ⟨d, flag, "default", "DEFAULT"⟩)

/-- A stub library: floats are decoded from fixed-point decimals, and an
object value is kept as its JSON text, which decodes and encodes as itself. -/
def stubLib : GoLib String where
  ParseFloat := decodeFloat64
  Unmarshal := fun d => .ok d
  Marshal := fun v => .ok v

/-- The external constructor of the GoFeatureFlag provider, when it accepts
its options: the provider is identified with the options it was built from. -/
def stubNewProvider : ProviderOptions → Except GoError ProviderOptions :=
  fun options => .ok options

/-- The values an object flag can hold, as far as `encoding/json` tells them
apart: a value given by its JSON text, or the number NaN, which `json.Marshal`
rejects. -/
inductive ObjectValue where
  | json (text : String)
  | nan
  deriving DecidableEq, Repr

/-- The JSON library on `ObjectValue`: a default decodes to the value its text
denotes, a decoded value encodes as its text, and encoding NaN fails with
the `UnsupportedValueError` of `json.Marshal`. -/
def jsonLib : GoLib ObjectValue where
  ParseFloat := decodeFloat64
  Unmarshal := fun d => .ok (.json d)
  Marshal := fun v =>
    match v with
    | .json text => .ok text
    | .nan => .error (.external "json: unsupported value: NaN")

/-- A client whose provider evaluates every object flag successfully to the
number NaN, with variant `on` and reason `TARGETING_MATCH`; every other flag
evaluates to the default it was given. -/
def nanClient : Client Unit ObjectValue where
  BooleanValueDetails := fun s flag d _ => (s, .ok ⟨d, flag, "default", "DEFAULT"⟩)
  StringValueDetails := fun s flag d _ => (s, .ok ⟨d, flag, "default", "DEFAULT"⟩)
  IntValueDetails := fun s flag d _ => (s, .ok ⟨d, flag, "default", "DEFAULT"⟩)
  FloatValueDetails := fun s flag d _ => (s, .ok ⟨d, flag, "default", "DEFAULT"⟩)
  ObjectValueDetails := fun s flag _ _ => (s, .ok ⟨.nan, flag, "on", "TARGETING_MATCH"⟩)

set_option maxRecDepth 100000
set_option exponentiation.threshold 4096

/-! ## Predicates used in the proofs -/

/-- Every character is a decimal digit character. -/
def AllDigits (l : List Char) : Prop := ∀ c ∈ l, ∃ d, d < 10 ∧ c = digitChar d

/-! ## Decimal digits: formatting and parsing -/

/-- A digit character reads back as its digit. -/
theorem digitVal_digitChar (d : Nat) (h : d < 10) : digitVal (digitChar d) = some d := by
  interval_cases d <;> rfl

/-- A digit character is neither a sign nor the decimal point. -/
theorem digitChar_ne_sign (d : Nat) (h : d < 10) :
    digitChar d ≠ '+' ∧ digitChar d ≠ '-' ∧ digitChar d ≠ '.' := by
  interval_cases d <;> decide

/-- Reading a concatenation continues from the value of the first part. -/
theorem digitsValue_append (l1 l2 : List Char) (m : Nat) :
    digitsValue (l1 ++ l2) m = (digitsValue l1 m).bind (digitsValue l2) := by
  induction l1 generalizing m with
  | nil => rfl
  | cons c cs ih =>
    simp only [List.cons_append, digitsValue]
    cases digitVal c with
    | none => rfl
    | some d => exact ih _

/-- Reading digits never decreases the accumulator. -/
theorem digitsValue_ge (l : List Char) (m v : Nat) (h : digitsValue l m = some v) : m ≤ v := by
  induction l generalizing m with
  | nil => simp [digitsValue] at h; omega
  | cons c cs ih =>
    simp only [digitsValue] at h
    cases hd : digitVal c with
    | none => simp [hd] at h
    | some d =>
      rw [hd] at h
      have := ih _ h
      omega

/-- With enough fuel the digits of `n` read back as `n`, shifted past `k` digits. -/
theorem natDigitsAux_value (fuel : Nat) :
    ∀ n, n < 10 ^ (fuel + 1) →
      ∃ k, ∀ acc m, digitsValue (natDigitsAux (fuel + 1) n acc) m
        = digitsValue acc (m * 10 ^ k + n) := by
  induction fuel with
  | zero =>
    intro n hn
    refine ⟨1, fun acc m => ?_⟩
    have h10 : n < 10 := by simpa using hn
    simp [natDigitsAux, h10, digitsValue, digitVal_digitChar n h10]
  | succ f ih =>
    intro n hn
    by_cases h10 : n < 10
    · refine ⟨1, fun acc m => ?_⟩
      simp [natDigitsAux, h10, digitsValue, digitVal_digitChar n h10]
    · have hdiv : n / 10 < 10 ^ (f + 1) := by
        rw [Nat.div_lt_iff_lt_mul (by norm_num)]
        calc n < 10 ^ (f + 1 + 1) := hn
          _ = 10 ^ (f + 1) * 10 := by ring
      obtain ⟨k, hk⟩ := ih (n / 10) hdiv
      refine ⟨k + 1, fun acc m => ?_⟩
      have hmod : n % 10 < 10 := Nat.mod_lt _ (by norm_num)
      rw [natDigitsAux, if_neg h10, hk]
      simp only [digitsValue, digitVal_digitChar _ hmod]
      congr 1
      have := Nat.div_add_mod n 10
      rw [pow_succ]
      nlinarith [this]

/-- The decimal digits of `n` read back as `n`. -/
theorem natDigits_value (n : Nat) : digitsValue (natDigits n) 0 = some n := by
  obtain ⟨k, hk⟩ := natDigitsAux_value n n (Nat.lt_pow_self (by norm_num) _ |>.trans_le
    (Nat.pow_le_pow_right (by norm_num) (Nat.le_succ n)))
  rw [natDigits, hk]
  simp [digitsValue]

theorem AllDigits_natDigitsAux (fuel : Nat) :
    ∀ n acc, AllDigits acc → AllDigits (natDigitsAux fuel n acc) := by
  induction fuel with
  | zero => intro n acc h; simpa [natDigitsAux] using h
  | succ f ih =>
    intro n acc h
    have step : ∀ d, d < 10 → AllDigits (digitChar d :: acc) := by
      intro d hd c hc
      rcases List.mem_cons.mp hc with rfl | hc
      · exact ⟨d, hd, rfl⟩
      · exact h c hc
    rw [natDigitsAux]
    split
    · exact step n (by assumption)
    · exact ih _ _ (step _ (Nat.mod_lt _ (by norm_num)))

/-- The decimal rendering of a natural number consists of digits only. -/
theorem AllDigits_natDigits (n : Nat) : AllDigits (natDigits n) :=
  AllDigits_natDigitsAux _ _ _ (fun _ h => absurd h (List.not_mem_nil _))

theorem natDigitsAux_ne_nil (fuel : Nat) :
    ∀ n acc, acc ≠ [] → natDigitsAux fuel n acc ≠ [] := by
  induction fuel with
  | zero => intro n acc h; simpa [natDigitsAux] using h
  | succ f ih =>
    intro n acc _
    rw [natDigitsAux]
    split
    · simp
    · exact ih _ _ (by simp)

/-- The decimal rendering of a natural number is not empty. -/
theorem natDigits_ne_nil (n : Nat) : natDigits n ≠ [] := by
  rw [natDigits, natDigitsAux]
  split
  · simp
  · exact natDigitsAux_ne_nil _ _ _ (by simp)

/-- On digits whose value fits in 64 bits the `ParseUint` loop returns that value. -/
theorem parseUintLoop_of_digitsValue (fn s : String) (l : List Char) :
    ∀ acc v, digitsValue l acc = some v → v < 2 ^ 64 → parseUintLoop fn s l acc = .ok v := by
  induction l with
  | nil => intro acc v h _; simp [digitsValue] at h; simp [parseUintLoop, h]
  | cons c cs ih =>
    intro acc v h hv
    simp only [digitsValue] at h
    cases hd : digitVal c with
    | none => simp [hd] at h
    | some d =>
      rw [hd] at h
      have hge := digitsValue_ge _ _ _ h
      have hv' : v < 18446744073709551616 := by simpa using hv
      simp only [parseUintLoop, hd]
      rw [if_neg (by norm_num; omega), if_neg (by norm_num; omega)]
      exact ih _ _ h hv

/-- `ParseInt` inverts `%d` on every signed 64-bit integer. -/
theorem ParseInt_fmtInt (v : Int) (h1 : minInt64 ≤ v) (h2 : v ≤ maxInt64) :
    ParseInt (fmtInt v) = .ok v := by
  unfold minInt64 at h1
  unfold maxInt64 at h2
  have hne := natDigits_ne_nil v.natAbs
  have hall := AllDigits_natDigits v.natAbs
  have hval := natDigits_value v.natAbs
  have hloop := parseUintLoop_of_digitsValue "ParseInt" (fmtInt v) _ _ _ hval
    (by norm_num; omega)
  rcases hl : natDigits v.natAbs with _ | ⟨c, cs⟩
  · exact absurd hl hne
  · rw [hl] at hloop hall
    obtain ⟨d, hd, rfl⟩ := hall c (List.mem_cons_self _ _)
    obtain ⟨hp, hm, _⟩ := digitChar_ne_sign d hd
    by_cases hneg : v < 0
    · have hdata : (fmtInt v).data = '-' :: digitChar d :: cs := by
        simp [fmtInt, hneg, hl]
      simp only [ParseInt, parseSigned, hdata]
      simp [hloop]
      rw [if_neg (by omega)]
      congr 1
      rw [abs_of_neg hneg]
      omega
    · have hdata : (fmtInt v).data = digitChar d :: cs := by
        simp [fmtInt, hneg, hl]
      simp only [ParseInt, parseSigned, hdata]
      simp [hp, hm, hloop]
      rw [if_neg (by omega)]
      congr 1
      exact abs_of_nonneg (by omega)

/-- `ParseBool` inverts `%t`. -/
theorem ParseBool_fmtBool (b : Bool) : ParseBool (fmtBool b) = .ok b := by
  cases b <;> rfl

/-! ## Floats: formatting, decoding and rounding -/

theorem fixedDigits_length (w n : Nat) : (fixedDigits w n).length = w := by
  induction w generalizing n with
  | zero => rfl
  | succ w ih => simp [fixedDigits, ih]

/-- The `w` zero-padded digits of `n` read back as `n % 10^w`. -/
theorem fixedDigits_value (w : Nat) :
    ∀ n m, digitsValue (fixedDigits w n) m = some (m * 10 ^ w + n % 10 ^ w) := by
  induction w with
  | zero => intro n m; simp [fixedDigits, digitsValue, Nat.mod_one]
  | succ w ih =>
    intro n m
    have hmod : n % 10 < 10 := Nat.mod_lt _ (by norm_num)
    rw [fixedDigits, digitsValue_append, ih]
    simp only [Option.some_bind, digitsValue, digitVal_digitChar _ hmod]
    congr 1
    rw [pow_succ', Nat.mod_mul]
    ring

theorem isDigit_digitChar (d : Nat) (h : d < 10) : isDigit (digitChar d) = true := by
  simp [isDigit, digitVal_digitChar d h]

/-- Splitting digits followed by a decimal point at the first non-digit. -/
theorem takeWhile_digits (l : List Char) (r : List Char) (h : AllDigits l) :
    (l ++ '.' :: r).takeWhile isDigit = l ∧ (l ++ '.' :: r).dropWhile isDigit = '.' :: r := by
  induction l with
  | nil =>
    have : isDigit '.' = false := by decide
    simp [List.takeWhile, List.dropWhile, this]
  | cons c cs ih =>
    obtain ⟨d, hd, rfl⟩ := h c (List.mem_cons_self _ _)
    have hcs : AllDigits cs := fun x hx => h x (List.mem_cons_of_mem _ hx)
    obtain ⟨h1, h2⟩ := ih hcs
    simp [List.takeWhile, List.dropWhile, isDigit_digitChar d hd, h1, h2]

/-- Decoding a rendered fixed-point number with six fractional digits rounds
the number `i + f / 10^6` to the nearest float64. -/
theorem decodeFloat64_fixed (neg : Bool) (i f : Nat) (s : String)
    (hs : s.data = (if neg then ['-'] else []) ++ natDigits i ++ '.' :: fixedDigits 6 f) :
    decodeFloat64 s = rangeChecked s (roundF64 neg (i * 10 ^ 6 + f % 10 ^ 6) (10 ^ 6)) := by
  have hne := natDigits_ne_nil i
  have hall := AllDigits_natDigits i
  obtain ⟨ht, hdw⟩ := takeWhile_digits (natDigits i) (fixedDigits 6 f) hall
  have hval : digitsValue (natDigits i ++ fixedDigits 6 f) 0
      = some (i * 10 ^ 6 + f % 10 ^ 6) := by
    rw [digitsValue_append, natDigits_value, Option.some_bind, fixedDigits_value]
  have hnil : natDigits i ++ fixedDigits 6 f ≠ [] := by simp [hne]
  have hlen := fixedDigits_length 6 f
  cases neg with
  | true =>
    have hs' : s.data = '-' :: (natDigits i ++ '.' :: fixedDigits 6 f) := by simpa using hs
    unfold decodeFloat64
    simp only [hs', List.head?_cons, List.tail_cons]
    simp [ht, hdw, hval, hnil, hlen]
  | false =>
    have hs' : s.data = natDigits i ++ '.' :: fixedDigits 6 f := by simpa using hs
    rcases hl : natDigits i with _ | ⟨c, cs⟩
    · exact absurd hl hne
    · obtain ⟨d, hd, hc⟩ := hall c (by rw [hl]; exact List.mem_cons_self _ _)
      obtain ⟨hp, hm, _⟩ := digitChar_ne_sign d hd
      rw [hl] at ht hdw hval hnil
      have hs'' : s.data = c :: (cs ++ '.' :: fixedDigits 6 f) := by rw [hs', hl]; rfl
      subst hc
      unfold decodeFloat64
      simp only [hs'', List.head?_cons]
      have e1 : (some (digitChar d) == some '-') = false := by simpa using hm
      have e2 : (some (digitChar d) == some '+') = false := by simpa using hp
      simp only [e1, e2]
      simp only [List.cons_append] at ht hdw hval hnil
      simp [ht, hdw, hval, hnil, hlen]

/-- Decoding the `%f` rendering of a finite float rounds its six-digit decimal
to the nearest float64. -/
theorem decodeFloat64_fmtFloat (neg : Bool) (mant e : Nat) :
    decodeFloat64 (fmtFloat (.finite neg mant e))
      = rangeChecked (fmtFloat (.finite neg mant e))
          (roundF64 neg (roundHalfEven (mant * 2 ^ e * 10 ^ 6) (2 ^ 1074)) (10 ^ 6)) := by
  have h := decodeFloat64_fixed neg (roundHalfEven (mant * 2 ^ e * 10 ^ 6) (2 ^ 1074) / 10 ^ 6)
    (roundHalfEven (mant * 2 ^ e * 10 ^ 6) (2 ^ 1074) % 10 ^ 6) (fmtFloat (.finite neg mant e))
    (by simp [fmtFloat])
  rw [h, Nat.mod_mod, Nat.div_add_mod']

theorem log2Aux_eq (fuel : Nat) :
    ∀ n k, n ≤ fuel → 2 ^ k ≤ n → n < 2 ^ (k + 1) → log2Aux fuel n = k := by
  induction fuel with
  | zero =>
    intro n k hn hk _
    have : 0 < 2 ^ k := pow_pos (by norm_num) _
    omega
  | succ f ih =>
    intro n k hn hk hk'
    rw [log2Aux]
    by_cases h2 : n < 2
    · rw [if_pos h2]
      rcases k with _ | k
      · rfl
      · have : 2 ^ (k + 1) = 2 * 2 ^ k := by ring
        have : 0 < 2 ^ k := pow_pos (by norm_num) _
        omega
    · rw [if_neg h2]
      rcases k with _ | k
      · simp at hk'; omega
      · have e1 : 2 ^ (k + 1) = 2 * 2 ^ k := by ring
        have e2 : 2 ^ (k + 1 + 1) = 2 * (2 * 2 ^ k) := by ring
        rw [ih (n / 2) k (by omega) (by omega) (by omega)]

/-- `log2 n` is the exponent of the power of two bracket that holds `n`. -/
theorem log2_eq (n k : Nat) (h1 : 2 ^ k ≤ n) (h2 : n < 2 ^ (k + 1)) : log2 n = k :=
  log2Aux_eq n n k (le_refl _) h1 h2

theorem log2_le (n k : Nat) (h : n < 2 ^ (k + 1)) : log2 n ≤ k := by
  by_cases h0 : n = 0
  · subst h0; simp [log2, log2Aux]
  · have hj := log2_eq n (Nat.log 2 n) (Nat.pow_log_le_self 2 h0)
      (Nat.lt_pow_succ_log_self (by norm_num) n)
    rw [hj]
    have := Nat.log_lt_of_lt_pow h0 h
    omega

/-- An exact quotient is not changed by rounding. -/
theorem roundHalfEven_exact (q d : Nat) (hd : 0 < d) : roundHalfEven (q * d) d = q := by
  simp [roundHalfEven, Nat.mul_div_cancel _ hd, hd]

theorem roundHalfEven_le (n d : Nat) : roundHalfEven n d ≤ n / d + 1 := by
  unfold roundHalfEven
  simp only
  split
  · omega
  · split
    · omega
    · split <;> omega

/-- A number that is a float64 rounds to itself. -/
theorem roundF64_exact (neg : Bool) (num den mant e : Nat) (hden : 0 < den)
    (hcan : (F64.finite neg mant e).Canonical)
    (h : num * 2 ^ 1074 = mant * 2 ^ e * den) :
    roundF64 neg num den = .finite neg mant e := by
  have hdiv : num * 2 ^ 1074 / den = mant * 2 ^ e := by
    rw [h, Nat.mul_div_cancel _ hden]
  have hlog : log2 (mant * 2 ^ e) - 52 = e := by
    rcases hcan with ⟨he, hm⟩ | ⟨hm1, hm2, _⟩
    · subst he
      have := log2_le mant 51 (by simpa using hm)
      simp
      omega
    · have := log2_eq (mant * 2 ^ e) (52 + e)
        (by rw [pow_add]; exact Nat.mul_le_mul_right _ hm1)
        (by
          have : 2 ^ (52 + e + 1) = 2 ^ 53 * 2 ^ e := by ring
          rw [this]
          exact Nat.mul_lt_mul_of_pos_right hm2 (pow_pos (by norm_num) _))
      omega
  have hround : roundHalfEven (num * 2 ^ 1074) (den * 2 ^ e) = mant := by
    have : num * 2 ^ 1074 = mant * (den * 2 ^ e) := by rw [h]; ring
    rw [this]
    exact roundHalfEven_exact _ _ (Nat.mul_pos hden (pow_pos (by norm_num) _))
  have hm53 : mant ≠ 2 ^ 53 := by
    rcases hcan with ⟨_, hm⟩ | ⟨_, hm2, _⟩
    · intro hh; rw [hh] at hm; norm_num at hm
    · omega
  have he : ¬ e > 2045 := by
    rcases hcan with ⟨he, _⟩ | ⟨_, _, he⟩ <;> omega
  unfold roundF64
  simp only [hdiv, hlog, hround, if_neg hm53, if_neg he]

/-- Below `2^1023` (scaled: `2^2097`) rounding does not overflow. -/
theorem roundF64_finite (neg : Bool) (num den : Nat)
    (h : num * 2 ^ 1074 / den < 2 ^ 2097) :
    ∃ m e, roundF64 neg num den = .finite neg m e := by
  have hlog := log2_le _ 2096 h
  unfold roundF64
  by_cases hm : roundHalfEven (num * 2 ^ 1074)
      (den * 2 ^ (log2 (num * 2 ^ 1074 / den) - 52)) = 2 ^ 53
  · simp only [hm, if_pos]
    rw [if_neg (by omega)]
    exact ⟨_, _, rfl⟩
  · simp only [if_neg hm]
    rw [if_neg (by omega)]
    exact ⟨_, _, rfl⟩

/-- A finite float64 with at most six fractional decimal digits is recovered
from its six-digit rendering. -/
theorem roundF64_sixDigits_exact (neg : Bool) (mant e : Nat)
    (hcan : (F64.finite neg mant e).Canonical)
    (hdvd : 2 ^ 1074 ∣ mant * 2 ^ e * 10 ^ 6) :
    roundF64 neg (roundHalfEven (mant * 2 ^ e * 10 ^ 6) (2 ^ 1074)) (10 ^ 6)
      = .finite neg mant e := by
  obtain ⟨q, hq⟩ := hdvd
  have hN : roundHalfEven (mant * 2 ^ e * 10 ^ 6) (2 ^ 1074) = q := by
    rw [hq, Nat.mul_comm]
    exact roundHalfEven_exact _ _ (pow_pos (by norm_num) _)
  rw [hN]
  exact roundF64_exact neg q (10 ^ 6) mant e (by norm_num) hcan (by rw [Nat.mul_comm, ← hq])

/-- The six-digit rendering of a finite float64 never rounds to infinity. -/
theorem roundF64_sixDigits_finite (neg : Bool) (mant e : Nat)
    (hcan : (F64.finite neg mant e).Canonical) :
    ∃ m1 e1, roundF64 neg (roundHalfEven (mant * 2 ^ e * 10 ^ 6) (2 ^ 1074)) (10 ^ 6)
      = .finite neg m1 e1 := by
  by_cases he : 1074 ≤ e
  · refine ⟨mant, e, roundF64_sixDigits_exact neg mant e hcan ?_⟩
    obtain ⟨k, rfl⟩ := Nat.exists_eq_add_of_le he
    exact ⟨mant * 2 ^ k * 10 ^ 6, by rw [pow_add]; ring⟩
  · apply roundF64_finite
    have hm : mant < 2 ^ 53 := by
      rcases hcan with ⟨_, hm⟩ | ⟨_, hm, _⟩
      · exact lt_trans hm (by norm_num)
      · exact hm
    have he' : 2 ^ e ≤ 2 ^ 1073 := Nat.pow_le_pow_right (by norm_num) (by omega)
    have h1 : mant * 2 ^ e * 10 ^ 6 / 2 ^ 1074 ≤ 2 ^ 52 * 10 ^ 6 := by
      apply Nat.div_le_of_le_mul
      calc mant * 2 ^ e * 10 ^ 6 ≤ 2 ^ 53 * 2 ^ 1073 * 10 ^ 6 :=
            Nat.mul_le_mul_right _ (Nat.mul_le_mul hm.le he')
        _ = 2 ^ 1074 * (2 ^ 52 * 10 ^ 6) := by norm_num
    have h2 := roundHalfEven_le (mant * 2 ^ e * 10 ^ 6) (2 ^ 1074)
    have h3 : roundHalfEven (mant * 2 ^ e * 10 ^ 6) (2 ^ 1074) ≤ 2 ^ 52 * 10 ^ 6 + 1 := by
      omega
    calc roundHalfEven (mant * 2 ^ e * 10 ^ 6) (2 ^ 1074) * 2 ^ 1074 / 10 ^ 6
        ≤ (2 ^ 52 * 10 ^ 6 + 1) * 2 ^ 1074 / 10 ^ 6 :=
          Nat.div_le_div_right (Nat.mul_le_mul_right _ h3)
      _ < 2 ^ 2097 := by norm_num

/-! ### Rounding returns a nearest float64 -/

theorem log2_eq_log (n : Nat) : log2 n = Nat.log 2 n := by
  by_cases h0 : n = 0
  · subst h0; simp [log2, log2Aux]
  · exact log2_eq n (Nat.log 2 n) (Nat.pow_log_le_self 2 h0)
      (Nat.lt_pow_succ_log_self (by norm_num) n)

theorem pow_log2_le (n : Nat) (h : n ≠ 0) : 2 ^ log2 n ≤ n := by
  rw [log2_eq_log]; exact Nat.pow_log_le_self 2 h

theorem lt_pow_log2_succ (n : Nat) : n < 2 ^ (log2 n + 1) := by
  rw [log2_eq_log]; exact Nat.lt_pow_succ_log_self (by norm_num) n

theorem roundHalfEven_ge (n d : Nat) : n / d ≤ roundHalfEven n d := by
  unfold roundHalfEven
  simp only
  split
  · omega
  · split
    · omega
    · split <;> omega

/-- The multiple of `d` chosen by `roundHalfEven` is at least as close to `n` as
any other multiple of `d`. -/
theorem roundHalfEven_nearest (n d k : Nat) (hd : 0 < d) :
    |(n : Int) - (roundHalfEven n d : Nat) * d| ≤ |(n : Int) - k * d| := by
  have hdm := Nat.div_add_mod n d
  have hr := Nat.mod_lt n hd
  set q := n / d with hq
  set r := n % d with hr'
  have hn : (n : Int) = d * q + r := by exact_mod_cast hdm.symm
  have hk : (k : Int) ≤ q ∨ (q : Int) + 1 ≤ k := by omega
  have hd' : (0 : Int) < d := by exact_mod_cast hd
  have hr0 : (0 : Int) ≤ r := by positivity
  have hrd : (r : Int) < d := by exact_mod_cast hr
  have key : ∀ (c : Nat), (c = q ∧ 2 * r ≤ d) ∨ (c = q + 1 ∧ d ≤ 2 * r) →
      |(n : Int) - (c : Nat) * d| ≤ |(n : Int) - k * d| := by
    intro c hc
    rcases hc with ⟨rfl, h2⟩ | ⟨rfl, h2⟩
    · have h2' : (2 : Int) * r ≤ d := by exact_mod_cast h2
      have e1 : (n : Int) - (q : Nat) * d = r := by rw [hn]; ring
      rw [e1, abs_of_nonneg hr0]
      rcases hk with hk | hk
      · have : (k : Int) * d ≤ q * d := mul_le_mul_of_nonneg_right hk hd'.le
        have e2 : (n : Int) - k * d = (q * d - k * d) + r := by rw [hn]; ring
        rw [e2, abs_of_nonneg (by linarith)]
        linarith
      · have : ((q : Int) + 1) * d ≤ k * d := mul_le_mul_of_nonneg_right hk hd'.le
        have e2 : (n : Int) - k * d = -((k * d - (q + 1) * d) + (d - r)) := by rw [hn]; ring
        rw [e2, abs_neg, abs_of_nonneg (by linarith)]
        linarith
    · have h2' : (d : Int) ≤ 2 * r := by exact_mod_cast h2
      have e1 : (n : Int) - ((q + 1 : Nat) : Int) * d = -(d - r) := by
        rw [hn]; push_cast; ring
      rw [e1, abs_neg, abs_of_nonneg (by linarith)]
      rcases hk with hk | hk
      · have : (k : Int) * d ≤ q * d := mul_le_mul_of_nonneg_right hk hd'.le
        have e2 : (n : Int) - k * d = (q * d - k * d) + r := by rw [hn]; ring
        rw [e2, abs_of_nonneg (by linarith)]
        linarith
      · have : ((q : Int) + 1) * d ≤ k * d := mul_le_mul_of_nonneg_right hk hd'.le
        have e2 : (n : Int) - k * d = -((k * d - (q + 1) * d) + (d - r)) := by rw [hn]; ring
        rw [e2, abs_neg, abs_of_nonneg (by linarith)]
        linarith
  apply key
  unfold roundHalfEven
  simp only [← hq, ← hr']
  split
  · left; exact ⟨rfl, by omega⟩
  · split
    · right; exact ⟨rfl, by omega⟩
    · split
      · left; exact ⟨rfl, by omega⟩
      · right; exact ⟨rfl, by omega⟩

/-- The two ways `roundF64` returns a finite value: with and without the carry
into the next binade. -/
theorem roundF64_finite_cases (neg : Bool) (num den m1 e1 : Nat)
    (h : roundF64 neg num den = .finite neg m1 e1) :
    (roundHalfEven (num * 2 ^ 1074) (den * 2 ^ (log2 (num * 2 ^ 1074 / den) - 52)) = 2 ^ 53
        ∧ m1 = 2 ^ 52 ∧ e1 = log2 (num * 2 ^ 1074 / den) - 52 + 1 ∧ e1 ≤ 2045)
    ∨ (roundHalfEven (num * 2 ^ 1074) (den * 2 ^ (log2 (num * 2 ^ 1074 / den) - 52)) ≠ 2 ^ 53
        ∧ m1 = roundHalfEven (num * 2 ^ 1074)
            (den * 2 ^ (log2 (num * 2 ^ 1074 / den) - 52))
        ∧ e1 = log2 (num * 2 ^ 1074 / den) - 52 ∧ e1 ≤ 2045) := by
  unfold roundF64 at h
  by_cases h53 : roundHalfEven (num * 2 ^ 1074)
      (den * 2 ^ (log2 (num * 2 ^ 1074 / den) - 52)) = 2 ^ 53
  · left
    simp only [h53, if_true] at h
    by_cases hinf : log2 (num * 2 ^ 1074 / den) - 52 + 1 > 2045
    · rw [if_pos hinf] at h
      exact absurd h (by simp)
    · rw [if_neg hinf] at h
      simp only [F64.finite.injEq, true_and] at h
      exact ⟨h53, h.1.symm, h.2.symm, by omega⟩
  · right
    simp only [if_neg h53] at h
    by_cases hinf : log2 (num * 2 ^ 1074 / den) - 52 > 2045
    · rw [if_pos hinf] at h
      exact absurd h (by simp)
    · rw [if_neg hinf] at h
      simp only [F64.finite.injEq, true_and] at h
      exact ⟨h53, h.1.symm, h.2.symm, by omega⟩

theorem roundF64_value (neg : Bool) (num den m1 e1 : Nat)
    (h : roundF64 neg num den = .finite neg m1 e1) :
    m1 * 2 ^ e1 = roundHalfEven (num * 2 ^ 1074)
        (den * 2 ^ (log2 (num * 2 ^ 1074 / den) - 52))
      * 2 ^ (log2 (num * 2 ^ 1074 / den) - 52) := by
  rcases roundF64_finite_cases neg num den m1 e1 h with ⟨h53, hm, he, _⟩ | ⟨_, hm, he, _⟩
  · rw [h53, hm, he, pow_succ]; ring
  · rw [← hm, ← he]

/-- A finite result of `roundF64` is a float64 encoding. -/
theorem roundF64_canonical (neg : Bool) (num den m1 e1 : Nat)
    (h : roundF64 neg num den = .finite neg m1 e1) :
    (F64.finite neg m1 e1).Canonical := by
  have hlt := lt_pow_log2_succ (num * 2 ^ 1074 / den)
  have hge := roundHalfEven_ge (num * 2 ^ 1074)
    (den * 2 ^ (log2 (num * 2 ^ 1074 / den) - 52))
  have hle := roundHalfEven_le (num * 2 ^ 1074)
    (den * 2 ^ (log2 (num * 2 ^ 1074 / den) - 52))
  rw [← Nat.div_div_eq_div_mul] at hge hle
  have hp : 0 < 2 ^ (log2 (num * 2 ^ 1074 / den) - 52) := pow_pos (by norm_num) _
  have hupper : num * 2 ^ 1074 / den / 2 ^ (log2 (num * 2 ^ 1074 / den) - 52) < 2 ^ 53 := by
    rw [Nat.div_lt_iff_lt_mul hp, ← pow_add]
    refine lt_of_lt_of_le hlt (Nat.pow_le_pow_right (by norm_num) ?_)
    omega
  have hlower : 1 ≤ log2 (num * 2 ^ 1074 / den) - 52 →
      2 ^ 52 ≤ num * 2 ^ 1074 / den / 2 ^ (log2 (num * 2 ^ 1074 / den) - 52) := by
    intro hE
    have hne : num * 2 ^ 1074 / den ≠ 0 := by
      intro h0
      rw [h0] at hE
      simp [log2, log2Aux] at hE
    rw [Nat.le_div_iff_mul_le hp, ← pow_add]
    refine le_trans (Nat.pow_le_pow_right (by norm_num) ?_) (pow_log2_le _ hne)
    omega
  unfold F64.Canonical
  rcases roundF64_finite_cases neg num den m1 e1 h with ⟨_, hm, he, hb⟩ | ⟨h53, hm, he, hb⟩
  · right
    rw [hm]
    exact ⟨le_refl _, by norm_num, hb⟩
  · generalize log2 (num * 2 ^ 1074 / den) - 52 = E at *
    generalize num * 2 ^ 1074 / den / 2 ^ E = X at *
    generalize roundHalfEven (num * 2 ^ 1074) (den * 2 ^ E) = m at *
    subst hm he
    have h53' : m1 ≠ 9007199254740992 := by simpa using h53
    have hupper' : X < 9007199254740992 := by simpa using hupper
    have hm53 : m1 < 2 ^ 53 := by norm_num; omega
    by_cases hE : e1 = 0
    · by_cases hs : m1 < 2 ^ 52
      · left; exact ⟨hE, hs⟩
      · right; exact ⟨by omega, hm53, by omega⟩
    · right
      have hl := hlower (by omega)
      exact ⟨by omega, hm53, hb⟩

/-- A finite result of `roundF64` is at least as close to `num / den` as any
float64 of the same sign: the distances are compared after scaling by
`2^1074 * den`. -/
theorem roundF64_nearest (neg : Bool) (num den m1 e1 mant e : Nat) (hden : 0 < den)
    (h : roundF64 neg num den = .finite neg m1 e1)
    (hcan : (F64.finite neg mant e).Canonical) :
    |((num * 2 ^ 1074 : Nat) : Int) - ((m1 * 2 ^ e1 * den : Nat) : Int)|
      ≤ |((num * 2 ^ 1074 : Nat) : Int) - ((mant * 2 ^ e * den : Nat) : Int)| := by
  have hval := roundF64_value neg num den m1 e1 h
  generalize hE : log2 (num * 2 ^ 1074 / den) - 52 = E at hval
  have hgrid : 0 < den * 2 ^ E := Nat.mul_pos hden (pow_pos (by norm_num) _)
  have e1' : ((m1 * 2 ^ e1 * den : Nat) : Int)
      = (roundHalfEven (num * 2 ^ 1074) (den * 2 ^ E) : Nat) * ((den * 2 ^ E : Nat) : Int) := by
    rw [hval]; push_cast; ring
  rw [e1']
  by_cases hle : E ≤ e
  · obtain ⟨j, rfl⟩ := Nat.exists_eq_add_of_le hle
    have e2 : ((mant * 2 ^ (E + j) * den : Nat) : Int)
        = ((mant * 2 ^ j : Nat) : Int) * ((den * 2 ^ E : Nat) : Int) := by
      push_cast; ring
    rw [e2]
    exact roundHalfEven_nearest _ _ _ hgrid
  · have hE1 : 1 ≤ E := by omega
    have hne : num * 2 ^ 1074 / den ≠ 0 := by
      intro h0
      rw [h0] at hE
      simp [log2, log2Aux] at hE
      omega
    have hpow := pow_log2_le _ hne
    have hX : 2 ^ (52 + E) ≤ num * 2 ^ 1074 / den :=
      le_trans (Nat.pow_le_pow_right (by norm_num) (by omega)) hpow
    have hB : 2 ^ 52 * (den * 2 ^ E) ≤ num * 2 ^ 1074 := by
      have := (Nat.le_div_iff_mul_le hden).mp hX
      calc 2 ^ 52 * (den * 2 ^ E) = 2 ^ (52 + E) * den := by rw [pow_add]; ring
        _ ≤ num * 2 ^ 1074 := this
    have hm : mant < 2 ^ 53 := by
      rcases hcan with ⟨_, hm⟩ | ⟨_, hm, _⟩
      · exact lt_trans hm (by norm_num)
      · exact hm
    have hw : mant * 2 ^ e * den ≤ 2 ^ 52 * (den * 2 ^ E) := by
      have he : 2 ^ (e + 1) ≤ 2 ^ E := Nat.pow_le_pow_right (by norm_num) (by omega)
      calc mant * 2 ^ e * den ≤ 2 ^ 53 * 2 ^ e * den :=
            Nat.mul_le_mul_right _ (Nat.mul_le_mul_right _ hm.le)
        _ = 2 ^ 52 * (den * 2 ^ (e + 1)) := by rw [pow_succ]; ring
        _ ≤ 2 ^ 52 * (den * 2 ^ E) :=
            Nat.mul_le_mul_left _ (Nat.mul_le_mul_left _ he)
    have hnear := roundHalfEven_nearest (num * 2 ^ 1074) (den * 2 ^ E) (2 ^ 52) hgrid
    have hB' : (((2 ^ 52 : Nat) : Int) * ((den * 2 ^ E : Nat) : Int))
        ≤ ((num * 2 ^ 1074 : Nat) : Int) := by exact_mod_cast hB
    have hw' : ((mant * 2 ^ e * den : Nat) : Int)
        ≤ ((2 ^ 52 : Nat) : Int) * ((den * 2 ^ E : Nat) : Int) := by exact_mod_cast hw
    rw [abs_of_nonneg (a := ((num * 2 ^ 1074 : Nat) : Int)
      - ((2 ^ 52 : Nat) : Int) * ((den * 2 ^ E : Nat) : Int)) (by linarith)] at hnear
    rw [abs_of_nonneg (a := ((num * 2 ^ 1074 : Nat) : Int) - ((mant * 2 ^ e * den : Nat) : Int))
      (by linarith)]
    linarith

/-- Rounding to a multiple of `d` moves by at most `d / 2`. -/
theorem roundHalfEven_error (n d : Nat) (hd : 0 < d) :
    2 * |(n : Int) - (roundHalfEven n d : Nat) * d| ≤ d := by
  have hdm := Nat.div_add_mod n d
  have hr := Nat.mod_lt n hd
  have hn : (n : Int) = d * (n / d : Nat) + (n % d : Nat) := by exact_mod_cast hdm.symm
  have hr0 : (0 : Int) ≤ (n % d : Nat) := by positivity
  have hrd : ((n % d : Nat) : Int) < d := by exact_mod_cast hr
  have key : ∀ (c : Nat), (c = n / d ∧ 2 * (n % d) ≤ d) ∨ (c = n / d + 1 ∧ d ≤ 2 * (n % d)) →
      2 * |(n : Int) - (c : Nat) * d| ≤ d := by
    intro c hc
    rcases hc with ⟨rfl, h2⟩ | ⟨rfl, h2⟩
    · have h2' : (2 : Int) * (n % d : Nat) ≤ d := by exact_mod_cast h2
      have e1 : (n : Int) - (n / d : Nat) * d = (n % d : Nat) := by
        nth_rewrite 1 [hn]; ring
      rw [e1, abs_of_nonneg hr0]
      exact h2'
    · have h2' : (d : Int) ≤ 2 * (n % d : Nat) := by exact_mod_cast h2
      have e1 : (n : Int) - ((n / d + 1 : Nat) : Int) * d = -(d - (n % d : Nat)) := by
        nth_rewrite 1 [hn]; push_cast; ring
      rw [e1, abs_neg, abs_of_nonneg (by linarith)]
      linarith
  apply key
  unfold roundHalfEven
  simp only
  split
  · left; exact ⟨rfl, by omega⟩
  · split
    · right; exact ⟨rfl, by omega⟩
    · split
      · left; exact ⟨rfl, by omega⟩
      · right; exact ⟨rfl, by omega⟩

/-- The float64 decoded from the six-digit rendering of a finite float64 lies
within `10^-6` of it (scaled by `2^1074 * 10^6`). -/
theorem roundF64_sixDigits_close (neg : Bool) (mant e m1 e1 : Nat)
    (hcan : (F64.finite neg mant e).Canonical)
    (h : roundF64 neg (roundHalfEven (mant * 2 ^ e * 10 ^ 6) (2 ^ 1074)) (10 ^ 6)
      = .finite neg m1 e1) :
    |((m1 * 2 ^ e1 * 10 ^ 6 : Nat) : Int) - ((mant * 2 ^ e * 10 ^ 6 : Nat) : Int)|
      ≤ ((2 ^ 1074 : Nat) : Int) := by
  have hnear := roundF64_nearest neg _ (10 ^ 6) m1 e1 mant e (by norm_num) h hcan
  have herr := roundHalfEven_error (mant * 2 ^ e * 10 ^ 6) (2 ^ 1074) (pow_pos (by norm_num) _)
  generalize roundHalfEven (mant * 2 ^ e * 10 ^ 6) (2 ^ 1074) = N at *
  have hN : (N : Int) * ((2 ^ 1074 : Nat) : Int) = ((N * 2 ^ 1074 : Nat) : Int) := by
    push_cast; ring
  rw [hN] at herr
  generalize ((m1 * 2 ^ e1 * 10 ^ 6 : Nat) : Int) = A at *
  generalize ((N * 2 ^ 1074 : Nat) : Int) = B at *
  generalize ((mant * 2 ^ e * 10 ^ 6 : Nat) : Int) = C at *
  have h1 := abs_sub_le A B C
  have h2 := abs_sub_comm A B
  have h3 := abs_sub_comm C B
  linarith

/-! ## Get and the nil `Items` map -/

/-- C1: on the request with the single key `featureX`, `featureX_type=bool`,
`featureX_defaultValue=false`, and a provider that evaluates successfully,
`Get` makes the provider call and then aborts with the run-time panic of a
store into the nil `Items` map; it returns neither a response nor an error. -/
theorem Get_single_bool_key_panics :
    (Get stubLib stubClient ()
        ⟨["featureX"], [("featureX_type", "bool"), ("featureX_defaultValue", "false")]⟩).result
      = .panic "assignment to entry in nil map"
    ∧ (Get stubLib stubClient ()
        ⟨["featureX"], [("featureX_type", "bool"), ("featureX_defaultValue", "false")]⟩).trace
      = [⟨"BooleanValueDetails", "featureX"⟩] := by
  constructor <;> rfl

/-- C2: on the keys `a`, `k`, where `a` is a well-formed boolean flag and `k`
has neither `k_type` nor `k_defaultValue`, `Get` does not return the
missing-metadata error: it aborts on storing the item of `a`. -/
theorem Get_missing_metadata_second_key_panics :
    (Get stubLib stubClient ()
        ⟨["a", "k"], [("a_type", "bool"), ("a_defaultValue", "true")]⟩).result
      = .panic "assignment to entry in nil map" := by
  rfl

/-- C3: on the keys `a`, `featureX`, where `a` is a well-formed boolean flag
and `featureX` has `featureX_type=int`, `featureX_defaultValue=notanumber`,
`Get` does not return the parse error: it aborts on storing the item of `a`. -/
theorem Get_unparsable_second_key_panics :
    (Get stubLib stubClient ()
        ⟨["a", "featureX"],
          [("a_type", "bool"), ("a_defaultValue", "true"),
           ("featureX_type", "int"), ("featureX_defaultValue", "notanumber")]⟩).result
      = .panic "assignment to entry in nil map" := by
  rfl

/-- C4: on the single key `k` with the unrecognized tag `k_type=colour`, `Get`
makes no provider call and then aborts on storing the nil item under `k`;
no response is returned. -/
theorem Get_unrecognized_type_panics :
    (Get stubLib stubClient ()
        ⟨["k"], [("k_type", "colour"), ("k_defaultValue", "red")]⟩).result
      = .panic "assignment to entry in nil map"
    ∧ (Get stubLib stubClient ()
        ⟨["k"], [("k_type", "colour"), ("k_defaultValue", "red")]⟩).trace = [] := by
  constructor <;> rfl

/-! ### What `Get` does on its first key -/

/-- With at least one requested key `Get` never returns a response: the nil
`Items` map makes the first store abort, unless an error ends the call first. -/
theorem Get_nonempty_no_response (lib : GoLib V) (c : Client σ V) (s : σ) (key : String)
    (rest : List String) (md : List (String × String)) (res : GetResponse) :
    (Get lib c s ⟨key :: rest, md⟩).result ≠ .response res := by
  simp only [Get, GetLoop]
  cases md.lookup (key ++ keyTypeSuffix) with
  | none => simp
  | some t =>
    cases md.lookup (key ++ keyDefaultValueSuffix) with
    | none => simp
    | some dvs =>
      simp only
      rcases dispatch lib c s [] t key (NewEvaluationContext "" md) dvs with ⟨s1, tr1, r⟩
      cases r <;> simp [GoMap.store]

/-- When the first requested key lacks `<key>_type`, or has it and lacks
`<key>_defaultValue`, `Get` returns the error naming the missing entry and
the flag. -/
theorem Get_first_key_missing_metadata (lib : GoLib V) (c : Client σ V) (s : σ) (k : String)
    (rest : List String) (md : List (String × String)) :
    (md.lookup (k ++ "_type") = none →
      (Get lib c s ⟨k :: rest, md⟩).result = .error (.errorf
        ("required key " ++ k ++ "_type" ++ " not found in metadata for flag " ++ k)))
    ∧ (∀ t, md.lookup (k ++ "_type") = some t → md.lookup (k ++ "_defaultValue") = none →
      (Get lib c s ⟨k :: rest, md⟩).result = .error (.errorf
        ("required key " ++ k ++ "_defaultValue" ++ " not found in metadata for flag " ++ k))) := by
  constructor
  · intro h
    simp [Get, GetLoop, keyTypeSuffix, h, String.append_assoc]
  · intro t h1 h2
    simp [Get, GetLoop, keyTypeSuffix, keyDefaultValueSuffix, h1, h2, String.append_assoc]

/-- When the default of the first requested key does not parse as its type
tag demands, `Get` returns the parse error and the client is never called. -/
theorem Get_first_key_unparsable (lib : GoLib V) (c : Client σ V) (s : σ) (k : String)
    (rest : List String) (md : List (String × String)) (d : String) (err : GoError)
    (hd : md.lookup (k ++ "_defaultValue") = some d)
    (h : (md.lookup (k ++ "_type") = some "bool" ∧ ParseBool d = .error err)
      ∨ (md.lookup (k ++ "_type") = some "int" ∧ ParseInt d = .error err)
      ∨ (md.lookup (k ++ "_type") = some "float" ∧ lib.ParseFloat d = .error err)
      ∨ (md.lookup (k ++ "_type") = some "object" ∧ lib.Unmarshal d = .error err)) :
    (Get lib c s ⟨k :: rest, md⟩).result = .error err
      ∧ (Get lib c s ⟨k :: rest, md⟩).trace = [] := by
  rcases h with ⟨ht, hp⟩ | ⟨ht, hp⟩ | ⟨ht, hp⟩ | ⟨ht, hp⟩ <;>
    simp [Get, GetLoop, keyTypeSuffix, keyDefaultValueSuffix, ht, hd, dispatch, FlagTypeBool,
      FlagTypeString, FlagTypeInt, FlagTypeFloat, FlagTypeObject, getBoolFlag, getIntFlag,
      getFloatFlag, getObjectFlag, hp, Except.map]

/-- When the first requested key carries an unrecognized type tag, `Get`
calls no getter and aborts on storing the nil item. -/
theorem Get_first_key_unrecognized (lib : GoLib V) (c : Client σ V) (s : σ) (k : String)
    (rest : List String) (md : List (String × String)) (t d : String)
    (ht : md.lookup (k ++ "_type") = some t) (hd : md.lookup (k ++ "_defaultValue") = some d)
    (h1 : t ≠ "bool") (h2 : t ≠ "string") (h3 : t ≠ "int") (h4 : t ≠ "float")
    (h5 : t ≠ "object") :
    (Get lib c s ⟨k :: rest, md⟩).result = .panic "assignment to entry in nil map"
      ∧ (Get lib c s ⟨k :: rest, md⟩).trace = [] := by
  simp [Get, GetLoop, keyTypeSuffix, keyDefaultValueSuffix, ht, hd, dispatch, FlagTypeBool,
    FlagTypeString, FlagTypeInt, FlagTypeFloat, FlagTypeObject, h1, h2, h3, h4, h5, GoMap.store]

/-- The loop of `Get` started on an allocated `Items` map: when it ends with
a response, the keys of `Items` are the requested keys together with the keys
the map held before. -/
theorem GetLoop_alloc_keys (lib : GoLib V) (c : Client σ V) (req : GetRequest)
    (evalContext : EvaluationContext) (keys : List String) :
    ∀ (es : List (String × Option Item)) (s : σ) (tr : List Call) (res : GetResponse),
      (GetLoop lib c req evalContext keys ⟨.alloc es⟩ s tr).result = .response res →
      ∀ k, k ∈ res.Items.keys ↔ k ∈ keys ∨ k ∈ es.map Prod.fst := by
  induction keys with
  | nil =>
    intro es s tr res h k
    simp only [GetLoop, GetOutcome.response.injEq] at h
    subst h
    simp [GoMap.keys]
  | cons key rest ih =>
    intro es s tr res h k
    simp only [GetLoop] at h
    cases h1 : req.Metadata.lookup (key ++ keyTypeSuffix) with
    | none => simp [h1] at h
    | some t =>
      cases h2 : req.Metadata.lookup (key ++ keyDefaultValueSuffix) with
      | none => simp [h1, h2] at h
      | some dvs =>
        simp only [h1, h2] at h
        rcases hd : dispatch lib c s tr t key evalContext dvs with ⟨s1, tr1, r⟩
        rw [hd] at h
        cases r with
        | error err => simp at h
        | ok item =>
          simp only [GoMap.store] at h
          rw [ih _ _ _ _ h k]
          simp only [List.map_cons, List.mem_cons, List.mem_map, List.mem_filter, Prod.exists,
            exists_and_right, exists_eq_right, bne_iff_ne, ne_eq]
          constructor
          · rintro (h | h | ⟨⟨v, hv⟩, _⟩)
            · exact Or.inl (Or.inr h)
            · exact Or.inl (Or.inl h)
            · exact Or.inr ⟨v, hv⟩
          · rintro ((h | h) | ⟨v, hv⟩)
            · exact Or.inr (Or.inl h)
            · exact Or.inl h
            · by_cases hk : k = key
              · exact Or.inr (Or.inl hk)
              · exact Or.inr (Or.inr ⟨⟨v, hv⟩, hk⟩)

/-! ## Provider selection -/

/-- C5: `NewFlagdProvider` accepts `flagdPort=70000` and `flagdPort=-1`
without error and passes the ports 4464 and 65535, the low 16 bits. -/
theorem NewFlagdProvider_port_wraps :
    NewFlagdProvider [("provider", "flagd"), ("flagdPort", "70000")] = .ok [.WithPort 4464]
    ∧ NewFlagdProvider [("provider", "flagd"), ("flagdPort", "-1")] = .ok [.WithPort 65535] := by
  constructor <;> rfl

/-- C6: with an endpoint, no `goFeatureFlagTimeout` entry and `flagdPort=8013`,
`NewGoFeatureFlagProvider` builds the provider with a timeout of 8013 seconds;
with `flagdPort=abc` it fails with a parse error naming `flagdPort`. -/
theorem NewGoFeatureFlagProvider_reads_flagdPort :
    NewGoFeatureFlagProvider stubNewProvider
        [("provider", "goFeatureFlag"), ("goFeatureFlagEndpoint", "http://localhost:1031"),
         ("flagdPort", "8013")]
      = .ok ⟨"http://localhost:1031", 8013 * Second⟩
    ∧ NewGoFeatureFlagProvider stubNewProvider
        [("provider", "goFeatureFlag"), ("goFeatureFlagEndpoint", "http://localhost:1031"),
         ("flagdPort", "abc")]
      = .error (.errorf "could not parse metadata value flagdPort, abc") := by
  constructor <;> rfl

/-! ## Init -/

/-- C10: `Init` returns an error and leaves the state (provider slot and
client) as it was in three cases: the metadata has no `provider` entry, with
the error `no provider defined in metadata`; the `provider` value is neither
`flagd` nor `goFeatureFlag`, with the error `unrecognized provider` followed
by the value; the value is `goFeatureFlag` and there is no
`goFeatureFlagEndpoint` entry, with an error naming that key.  With `provider=flagd` and neither `flagdHost` nor
`flagdPort`, `Init` returns no error, installs the flagd provider built from
the empty option list and sets the client named `dapr`. -/
theorem Init_configuration_errors {P : Type}
    (newProviderWithContext : ProviderOptions → Except GoError P)
    (st : InitState P) (metadata : List (String × String)) :
    (metadata.lookup "provider" = none →
      Init newProviderWithContext st metadata
        = (st, some (.errorf "no provider defined in metadata")))
    ∧ (∀ provider, metadata.lookup "provider" = some provider →
        provider ≠ "flagd" → provider ≠ "goFeatureFlag" →
        Init newProviderWithContext st metadata
          = (st, some (.errorf ("unrecognized provider " ++ provider))))
    ∧ (metadata.lookup "provider" = some "goFeatureFlag" →
        metadata.lookup "goFeatureFlagEndpoint" = none →
        Init newProviderWithContext st metadata
          = (st, some (.errorf "missing required metadata value goFeatureFlagEndpoint")))
    ∧ (metadata.lookup "provider" = some "flagd" →
        metadata.lookup "flagdHost" = none → metadata.lookup "flagdPort" = none →
        Init newProviderWithContext st metadata
          = (⟨some (.flagd []), some "dapr"⟩, none)) := by
  refine ⟨?_, ?_, ?_, ?_⟩
  · intro h
    simp [Init, keyProvider, h]
  · intro provider h h1 h2
    simp [Init, keyProvider, h, ProviderFlagd, ProviderGoFeatureFlag, h1, h2]
  · intro h h1
    simp [Init, keyProvider, h, ProviderFlagd, ProviderGoFeatureFlag, NewGoFeatureFlagProvider,
      keyGoFeatureFlagEndpoint, h1]
  · intro h h1 h2
    simp [Init, keyProvider, h, ProviderFlagd, NewFlagdProvider, keyFlagdHost, keyFlagdPort, h1, h2]

/-- The four cases of `Init` on concrete metadata maps, from the unset state. -/
theorem Init_configuration_errors_witness :
    Init stubNewProvider ⟨none, none⟩ [] = (⟨none, none⟩, some (.errorf "no provider defined in metadata"))
    ∧ Init stubNewProvider ⟨none, none⟩ [("provider", "launchdarkly")]
        = (⟨none, none⟩, some (.errorf "unrecognized provider launchdarkly"))
    ∧ Init stubNewProvider ⟨none, none⟩ [("provider", "goFeatureFlag")]
        = (⟨none, none⟩, some (.errorf "missing required metadata value goFeatureFlagEndpoint"))
    ∧ Init stubNewProvider ⟨none, none⟩ [("provider", "flagd")]
        = (⟨some (.flagd []), some "dapr"⟩, none) :=
  ⟨(Init_configuration_errors stubNewProvider ⟨none, none⟩ []).1 rfl,
   (Init_configuration_errors stubNewProvider ⟨none, none⟩ [("provider", "launchdarkly")]).2.1
      "launchdarkly" rfl (by decide) (by decide),
   (Init_configuration_errors stubNewProvider ⟨none, none⟩ [("provider", "goFeatureFlag")]).2.2.1
      rfl rfl,
   (Init_configuration_errors stubNewProvider ⟨none, none⟩ [("provider", "flagd")]).2.2.2
      rfl rfl rfl⟩

/-! ## The typed getters -/

/-- C7: round trip for the exactly encoded flag types.  Whenever the default
parses and the provider evaluation succeeds with details `res`, the getter
returns an Item, and decoding its value string with the parser the getter
applies to defaults recovers `res.Value`: `ParseBool` for the bool getter,
`ParseInt` for the int getter (every signed 64-bit value), and the value
string itself for the string getter. -/
theorem getters_round_trip (c : Client σ V) (s : σ) (tr : List Call) (flag : String)
    (evalContext : EvaluationContext) :
    (∀ d dv s1 res, ParseBool d = .ok dv →
        c.BooleanValueDetails s flag dv evalContext = (s1, .ok res) →
        ∃ item, (getBoolFlag c s tr flag evalContext d).result = .ok item
          ∧ ParseBool item.Value = .ok res.Value)
    ∧ (∀ d dv s1 res, ParseInt d = .ok dv →
        c.IntValueDetails s flag (toInt64 dv) evalContext = (s1, .ok res) →
        ∃ item, (getIntFlag c s tr flag evalContext d).result = .ok item
          ∧ ParseInt item.Value = .ok res.Value.val)
    ∧ (∀ d s1 res, c.StringValueDetails s flag d evalContext = (s1, .ok res) →
        ∃ item, (getStringFlag c s tr flag evalContext d).result = .ok item
          ∧ item.Value = res.Value) := by
  refine ⟨?_, ?_, ?_⟩
  · intro d dv s1 res hp hc
    exact ⟨⟨fmtBool res.Value, detailsMetadata res⟩, by simp [getBoolFlag, hp, hc],
      ParseBool_fmtBool _⟩
  · intro d dv s1 res hp hc
    exact ⟨⟨fmtInt res.Value.val, detailsMetadata res⟩, by simp [getIntFlag, hp, hc],
      ParseInt_fmtInt _ res.Value.property.1 res.Value.property.2⟩
  · intro d s1 res hc
    exact ⟨⟨res.Value, detailsMetadata res⟩, by simp [getStringFlag, hc], rfl⟩

/-- The round trip of the bool, int and string getters on the stub client. -/
theorem getters_round_trip_witness :
    (∃ item, (getBoolFlag stubClient () [] "featureX" ⟨"", []⟩ "false").result = .ok item
        ∧ ParseBool item.Value = .ok true)
    ∧ (∃ item, (getIntFlag stubClient () [] "limit" ⟨"", []⟩ "-42").result = .ok item
        ∧ ParseInt item.Value = .ok (-42))
    ∧ (∃ item, (getStringFlag stubClient () [] "colour" ⟨"", []⟩ "red").result = .ok item
        ∧ item.Value = "red") :=
  ⟨(getters_round_trip stubClient () [] "featureX" ⟨"", []⟩).1 "false" false ()
      ⟨true, "featureX", "on", "TARGETING_MATCH"⟩ rfl rfl,
   (getters_round_trip stubClient () [] "limit" ⟨"", []⟩).2.1 "-42" (-42) ()
      ⟨toInt64 (-42), "limit", "default", "DEFAULT"⟩ rfl rfl,
   (getters_round_trip stubClient () [] "colour" ⟨"", []⟩).2.2 "red" ()
      ⟨"red", "colour", "default", "DEFAULT"⟩ rfl⟩

/-- C9, amended: when the default parses and the provider evaluation succeeds
with details `res`, the bool, string, int and float getters return an Item
that carries exactly the three metadata entries `flagKey`, `variant`,
`reason`, taken verbatim from `res`; the bool getter's value is `true` when
`res.Value` is true and `false` otherwise.  The object getter returns such an
Item, its value being the encoded text, provided JSON-encoding `res.Value`
succeeds; when the encoding fails it returns that error and no Item. -/
theorem getters_metadata (lib : GoLib V) (c : Client σ V) (s : σ) (tr : List Call)
    (flag : String) (evalContext : EvaluationContext) :
    (∀ d dv s1 res, ParseBool d = .ok dv →
        c.BooleanValueDetails s flag dv evalContext = (s1, .ok res) →
        (getBoolFlag c s tr flag evalContext d).result
          = .ok ⟨if res.Value = true then "true" else "false",
              [("flagKey", res.FlagKey), ("variant", res.Variant), ("reason", res.Reason)]⟩)
    ∧ (∀ d s1 res, c.StringValueDetails s flag d evalContext = (s1, .ok res) →
        (getStringFlag c s tr flag evalContext d).result
          = .ok ⟨res.Value,
              [("flagKey", res.FlagKey), ("variant", res.Variant), ("reason", res.Reason)]⟩)
    ∧ (∀ d dv s1 res, ParseInt d = .ok dv →
        c.IntValueDetails s flag (toInt64 dv) evalContext = (s1, .ok res) →
        (getIntFlag c s tr flag evalContext d).result
          = .ok ⟨fmtInt res.Value.val,
              [("flagKey", res.FlagKey), ("variant", res.Variant), ("reason", res.Reason)]⟩)
    ∧ (∀ d dv s1 res, lib.ParseFloat d = .ok dv →
        c.FloatValueDetails s flag dv evalContext = (s1, .ok res) →
        (getFloatFlag lib c s tr flag evalContext d).result
          = .ok ⟨fmtFloat res.Value,
              [("flagKey", res.FlagKey), ("variant", res.Variant), ("reason", res.Reason)]⟩)
    ∧ (∀ d dv s1 res, lib.Unmarshal d = .ok dv →
        c.ObjectValueDetails s flag dv evalContext = (s1, .ok res) →
        (∀ val, lib.Marshal res.Value = .ok val →
          (getObjectFlag lib c s tr flag evalContext d).result
            = .ok ⟨val,
                [("flagKey", res.FlagKey), ("variant", res.Variant), ("reason", res.Reason)]⟩)
        ∧ (∀ err, lib.Marshal res.Value = .error err →
          (getObjectFlag lib c s tr flag evalContext d).result = .error err)) := by
  refine ⟨?_, ?_, ?_, ?_, ?_⟩
  · intro d dv s1 res hp hc
    cases hv : res.Value <;> simp [getBoolFlag, hp, hc, detailsMetadata, fmtBool, hv]
  · intro d s1 res hc
    simp [getStringFlag, hc, detailsMetadata]
  · intro d dv s1 res hp hc
    simp [getIntFlag, hp, hc, detailsMetadata]
  · intro d dv s1 res hp hc
    simp [getFloatFlag, hp, hc, detailsMetadata]
  · intro d dv s1 res hp hc
    constructor
    · intro val hm
      simp [getObjectFlag, hp, hc, hm, detailsMetadata]
    · intro err hm
      simp [getObjectFlag, hp, hc, hm]

/-- The Items of the five getters on the stub client and stub library. -/
theorem getters_metadata_witness :
    (getBoolFlag stubClient () [] "featureX" ⟨"", []⟩ "false").result
      = .ok ⟨"true",
          [("flagKey", "featureX"), ("variant", "on"), ("reason", "TARGETING_MATCH")]⟩
    ∧ (getStringFlag stubClient () [] "colour" ⟨"", []⟩ "red").result
      = .ok ⟨"red", [("flagKey", "colour"), ("variant", "default"), ("reason", "DEFAULT")]⟩
    ∧ (getIntFlag stubClient () [] "limit" ⟨"", []⟩ "-42").result
      = .ok ⟨"-42", [("flagKey", "limit"), ("variant", "default"), ("reason", "DEFAULT")]⟩
    ∧ (getFloatFlag stubLib stubClient () [] "ratio" ⟨"", []⟩ "0.5").result
      = .ok ⟨"0.500000",
          [("flagKey", "ratio"), ("variant", "default"), ("reason", "DEFAULT")]⟩
    ∧ (getObjectFlag stubLib stubClient () [] "theme" ⟨"", []⟩ "null").result
      = .ok ⟨"null", [("flagKey", "theme"), ("variant", "default"), ("reason", "DEFAULT")]⟩ :=
  ⟨(getters_metadata stubLib stubClient () [] "featureX" ⟨"", []⟩).1 "false" false ()
      ⟨true, "featureX", "on", "TARGETING_MATCH"⟩ rfl rfl,
   (getters_metadata stubLib stubClient () [] "colour" ⟨"", []⟩).2.1 "red" ()
      ⟨"red", "colour", "default", "DEFAULT"⟩ rfl,
   (getters_metadata stubLib stubClient () [] "limit" ⟨"", []⟩).2.2.1 "-42" (-42) ()
      ⟨toInt64 (-42), "limit", "default", "DEFAULT"⟩ rfl rfl,
   ((getters_metadata stubLib stubClient () [] "ratio" ⟨"", []⟩).2.2.2.1 "0.5"
      (.finite false (2 ^ 52) 1021) () ⟨.finite false (2 ^ 52) 1021, "ratio", "default", "DEFAULT"⟩
      (by rfl) rfl).trans (by rfl),
   ((getters_metadata stubLib stubClient () [] "theme" ⟨"", []⟩).2.2.2.2 "null" "null" ()
      ⟨"null", "theme", "default", "DEFAULT"⟩ rfl rfl).1 "null" rfl⟩

/-- C9, as stated, fails for the object getter.  The default, the empty
JSON object, parses and the provider evaluation of `theme` succeeds with the
value NaN, variant `on` and reason `TARGETING_MATCH`; `json.Marshal` rejects
NaN, so
`getObjectFlag` returns that error after the one provider call, and no Item
carrying the three metadata entries is returned. -/
theorem getObjectFlag_unencodable_value_no_item :
    jsonLib.Unmarshal "\x7b\x7d" = .ok (.json "\x7b\x7d")
    ∧ (nanClient.ObjectValueDetails () "theme" (.json "\x7b\x7d") ⟨"", []⟩).2
        = .ok ⟨.nan, "theme", "on", "TARGETING_MATCH"⟩
    ∧ (getObjectFlag jsonLib nanClient () [] "theme" ⟨"", []⟩ "\x7b\x7d").result
        = .error (.external "json: unsupported value: NaN")
    ∧ (getObjectFlag jsonLib nanClient () [] "theme" ⟨"", []⟩ "\x7b\x7d").trace
        = [⟨"ObjectValueDetails", "theme"⟩] := by
  refine ⟨rfl, rfl, rfl, rfl⟩

/-! ## The float getter -/

/-- C8, amended: round trip of the float getter up to the six digits `%f`
keeps.  Whenever the default parses and the provider evaluation succeeds with
a finite float64 `res.Value`, of value `mant * 2^e / 2^1074`, the getter
returns an Item, and decoding its value string as a base-10 64-bit float
succeeds.  The decoded value is the float64 nearest to `res.Value` rounded,
ties to even, to six digits after the decimal point; it is a finite float64
`m1 * 2^e1 / 2^1074` that differs from `res.Value` by at most `10^-6`; and it
is `res.Value` itself whenever `res.Value` has at most six fractional decimal
digits, that is whenever `res.Value * 10^6` is an integer. -/
theorem getFloatFlag_round_trip_six_digits (lib : GoLib V) (c : Client σ V) (s s1 : σ)
    (tr : List Call) (flag : String) (evalContext : EvaluationContext) (d : String)
    (dv : F64) (res : EvaluationDetails F64) (neg : Bool) (mant e : Nat)
    (hp : lib.ParseFloat d = .ok dv)
    (hc : c.FloatValueDetails s flag dv evalContext = (s1, .ok res))
    (hv : res.Value = .finite neg mant e) (hcan : res.Value.Canonical) :
    ∃ item m1 e1, (getFloatFlag lib c s tr flag evalContext d).result = .ok item
      ∧ decodeFloat64 item.Value = .ok (.finite neg m1 e1)
      ∧ F64.finite neg m1 e1
          = roundF64 neg (roundHalfEven (mant * 2 ^ e * 10 ^ 6) (2 ^ 1074)) (10 ^ 6)
      ∧ (F64.finite neg m1 e1).Canonical
      ∧ |((m1 * 2 ^ e1 * 10 ^ 6 : Nat) : Int) - ((mant * 2 ^ e * 10 ^ 6 : Nat) : Int)|
          ≤ ((2 ^ 1074 : Nat) : Int)
      ∧ (2 ^ 1074 ∣ mant * 2 ^ e * 10 ^ 6 → F64.finite neg m1 e1 = res.Value) := by
  rw [hv] at hcan
  have hdec := decodeFloat64_fmtFloat neg mant e
  obtain ⟨m1, e1, hfin⟩ := roundF64_sixDigits_finite neg mant e hcan
  have hok : decodeFloat64 (fmtFloat (.finite neg mant e)) = .ok (.finite neg m1 e1) := by
    rw [hdec, hfin]; rfl
  refine ⟨⟨fmtFloat res.Value, detailsMetadata res⟩, m1, e1, by simp [getFloatFlag, hp, hc],
    ?_, hfin.symm, roundF64_canonical neg _ _ m1 e1 hfin,
    roundF64_sixDigits_close neg mant e m1 e1 hcan hfin, ?_⟩
  · simp only [hv]; exact hok
  · intro hdvd
    rw [hv, ← hfin, roundF64_sixDigits_exact neg mant e hcan hdvd]

/-- The float round trip on the stub client for the value 0.5, which has one
fractional decimal digit: the Item `0.500000` decodes to 0.5. -/
theorem getFloatFlag_round_trip_six_digits_witness :
    ∃ item, (getFloatFlag stubLib stubClient () [] "ratio" ⟨"", []⟩ "0.5").result = .ok item
      ∧ decodeFloat64 item.Value = .ok (.finite false (2 ^ 52) 1021) :=
  match getFloatFlag_round_trip_six_digits stubLib stubClient () () [] "ratio" ⟨"", []⟩ "0.5"
    (.finite false (2 ^ 52) 1021) ⟨.finite false (2 ^ 52) 1021, "ratio", "default", "DEFAULT"⟩
    false (2 ^ 52) 1021 (by rfl) rfl rfl (by decide) with
  | ⟨item, _, _, h1, h2, _, _, _, h3⟩ => ⟨item, h1, h2.trans (congrArg Except.ok
      (h3 (show (2 : Nat) ^ 1074 ∣ 2 ^ 52 * 2 ^ 1021 * 10 ^ 6 from by decide)))⟩

/-- C8, as stated, fails.  The provider returns the float64 nearest to
0.0000001, a finite value; `getFloatFlag` returns the Item with value string
`0.000000`, which decodes to zero, and zero is not equal to the value the
provider returned.  Likewise for the float64 nearest to 1.23456789: the value
string is `1.234568`, which decodes to a different float64. -/
theorem getFloatFlag_round_trip_fails :
    ((stubClient.FloatValueDetails () "ratio" (.finite false 7555786372591432 998) ⟨"", []⟩).2
        = .ok ⟨.finite false 7555786372591432 998, "ratio", "default", "DEFAULT"⟩
      ∧ F64.Canonical (.finite false 7555786372591432 998)
      ∧ (getFloatFlag stubLib stubClient () [] "ratio" ⟨"", []⟩ "0.0000001").result
          = .ok ⟨"0.000000",
              [("flagKey", "ratio"), ("variant", "default"), ("reason", "DEFAULT")]⟩
      ∧ decodeFloat64 "0.000000" = .ok (.finite false 0 0)
      ∧ F64.goEq (.finite false 0 0) (.finite false 7555786372591432 998) = false)
    ∧ ((stubClient.FloatValueDetails () "ratio" (.finite false 5559999489367579 1022)
          ⟨"", []⟩).2
        = .ok ⟨.finite false 5559999489367579 1022, "ratio", "default", "DEFAULT"⟩
      ∧ F64.Canonical (.finite false 5559999489367579 1022)
      ∧ (getFloatFlag stubLib stubClient () [] "ratio" ⟨"", []⟩ "1.23456789").result
          = .ok ⟨"1.234568",
              [("flagKey", "ratio"), ("variant", "default"), ("reason", "DEFAULT")]⟩
      ∧ decodeFloat64 "1.234568" = .ok (.finite false 5559999984763539 1022)
      ∧ F64.goEq (.finite false 5559999984763539 1022)
          (.finite false 5559999489367579 1022) = false) := by
  refine ⟨⟨rfl, by decide, by rfl, by rfl, by rfl⟩, ⟨rfl, by decide, by rfl, by rfl, by rfl⟩⟩

end OpenFeature
